import Mathlib

/-!
# Verification of the `lazymusic` widget / event-dispatch core

A shallow embedding of the parts of the `lazymusic` repository that the
specification's testable properties talk about:

* `lazy-core/src/types.rs` — the `KeyStatus` enumeration;
* `lazy-app/src/event.rs` — the `EventHandler` key map and
  `add_keybindings`;
* `lazy-config/src/keymap.rs` — `parse_key_string`, `format_key_string`
  and the `Keymaps → HashMap` conversion;
* `lazy-tui` — the widget tree (`PlayerTui`, `RootTui`, leaf widgets),
  type-directed lookup (`HasWidgets::get_widget`), event dispatch
  (`enent_handle`, `delegate_to_widget!`) and the generated border
  capability (`toggle_border` from `lazy-macro/src/has_tui_style.rs`).

Rust `HashMap`s are modelled as association lists with insert-replaces
semantics; Rust `&str` values handled by the key-string parser are
modelled as `List Char` so that byte-level operations (`str::len`) can
be expressed faithfully.
-/

namespace LazyMusic

/-! ## Key codes and modifiers (`crossterm::event`)

Only the key codes producible by `parse_key_string` are modelled, plus
`Char` for arbitrary characters.  `KeyModifiers` is the subset of the
crossterm bitflags that the parser can set. -/

/-- Model of `crossterm::event::KeyCode` (the variants used by the repo). -/
inductive KeyCode where
  | Enter
  | Tab
  | Backspace
  | Esc
  | Left
  | Right
  | Up
  | Down
  | Home
  | End
  | PageUp
  | PageDown
  | Delete
  | Insert
  | F (n : Nat)
  | Char (c : Char)
deriving DecidableEq, Repr

/-- Model of `crossterm::event::KeyModifiers` restricted to the three
flags the repository ever sets (CONTROL, ALT, SHIFT). -/
structure KeyModifiers where
  ctrl : Bool
  alt : Bool
  shift : Bool
deriving DecidableEq, Repr

/-- `KeyModifiers::NONE`. -/
def KeyModifiers.NONE : KeyModifiers := ⟨false, false, false⟩

/-- `KeyModifiers::CONTROL`. -/
def KeyModifiers.CONTROL : KeyModifiers := ⟨true, false, false⟩

/-- `KeyModifiers::ALT`. -/
def KeyModifiers.ALT : KeyModifiers := ⟨false, true, false⟩

/-- `KeyModifiers.SHIFT`. -/
def KeyModifiers.SHIFT : KeyModifiers := ⟨false, false, true⟩

/-- Bitwise union of modifier sets (Rust `|=`). -/
def KeyModifiers.union (a b : KeyModifiers) : KeyModifiers :=
  ⟨a.ctrl || b.ctrl, a.alt || b.alt, a.shift || b.shift⟩

/-! ## `KeyStatus` (`lazy-core/src/types.rs`) -/

/-- The logical key status enumeration of `lazy-core/src/types.rs`. -/
inductive KeyStatus where
  | Quit
  | TogglePlay
  | VolumeIncrease
  | VolumeDecrease
  | ProgressIncrease
  | ProgressDecrease
  | PickerNext
  | PickerPrev
  | SwitchMode
  | NextTrack
  | PrevTrack
  | PlaySelected
  | NavbarNext
  | NavbarPrev
  | NoOp
deriving DecidableEq, Repr

/-! ## The key map as an association list

`EventHandler.keymap` is a `HashMap<(KeyCode, KeyModifiers), KeyStatus>`.
We model it as an association list whose `insert` replaces an existing
entry with the same key and otherwise appends, which matches the
key-uniqueness semantics of `HashMap::insert` (iteration order is
irrelevant to every claim considered here). -/

/-- A key of the key map. -/
abbrev KeyCombo := KeyCode × KeyModifiers

/-- Association-list model of `HashMap<(KeyCode, KeyModifiers), KeyStatus>`. -/
abbrev Keymap := List (KeyCombo × KeyStatus)

/-- `HashMap::insert`: replace the entry with the same key, if any,
otherwise add the new entry. -/
def hmInsert : Keymap → KeyCombo → KeyStatus → Keymap
  | [], k, v => [(k, v)]
  | p :: rest, k, v => if p.1 = k then (k, v) :: rest else p :: hmInsert rest k v

/-- `HashMap::extend`: insert every entry of the batch in turn. -/
def hmExtend (m : Keymap) (batch : Keymap) : Keymap :=
  batch.foldl (fun acc p => hmInsert acc p.1 p.2) m

/-- `HashMap::get` (first entry with the given key). -/
def hmLookup (m : Keymap) (k : KeyCombo) : Option KeyStatus :=
  (m.find? (fun p => p.1 = k)).map (·.2)

/-- The keys of a map that are bound to a given status. -/
def keysFor (m : Keymap) (s : KeyStatus) : List KeyCombo :=
  (m.filter (fun p => p.2 = s)).map (·.1)

/-! ## `EventHandler` (`lazy-app/src/event.rs`) -/

/-- `EventHandler::default_keybindings` (the event stream field is not
modelled; only the key map matters for the claims). -/
def defaultKeybindings : Keymap :=
  [ ((KeyCode.Char 'q', KeyModifiers.NONE), KeyStatus.Quit),
    ((KeyCode.Char 'p', KeyModifiers.NONE), KeyStatus.TogglePlay),
    ((KeyCode.Char '+', KeyModifiers.NONE), KeyStatus.VolumeIncrease),
    ((KeyCode.Char '-', KeyModifiers.NONE), KeyStatus.VolumeDecrease),
    ((KeyCode.Char 'l', KeyModifiers.NONE), KeyStatus.ProgressIncrease),
    ((KeyCode.Char 'h', KeyModifiers.NONE), KeyStatus.ProgressDecrease),
    ((KeyCode.Char 'j', KeyModifiers.NONE), KeyStatus.PickerNext),
    ((KeyCode.Char 'k', KeyModifiers.NONE), KeyStatus.PickerPrev),
    ((KeyCode.Char 'm', KeyModifiers.NONE), KeyStatus.SwitchMode),
    ((KeyCode.Char ']', KeyModifiers.NONE), KeyStatus.NextTrack),
    ((KeyCode.Char '[', KeyModifiers.NONE), KeyStatus.PrevTrack),
    ((KeyCode.Char 'L', KeyModifiers.NONE), KeyStatus.NavbarNext),
    ((KeyCode.Char 'H', KeyModifiers.NONE), KeyStatus.NavbarPrev),
    ((KeyCode.Enter, KeyModifiers.NONE), KeyStatus.PlaySelected) ]

/-- `EventHandler::add_keybindings`: `self.keymap.extend(key_bindings)`. -/
def addKeybindings (keymap : Keymap) (keyBindings : Keymap) : Keymap :=
  hmExtend keymap keyBindings

/-- The value bound to `k` by the latest entry of the batch for `k`
(Rust: the binding `extend` ends up storing for key `k`); later batch
entries shadow earlier ones. -/
def lastVal : Keymap → KeyCombo → Option KeyStatus
  | [], _ => none
  | p :: rest, k =>
    match lastVal rest k with
    | some v => some v
    | none => if p.1 = k then some p.2 else none

/-! ## The key-combination string grammar
(`lazy-config/src/keymap.rs`; `lazy-app/src/event.rs` contains a
textually identical copy of `parse_key_string`)

Rust `&str` values are modelled as `List Char` (the sequence of
unicode scalar values); `str::len` is the UTF-8 byte length, computed
from the scalar values.  `str::to_lowercase` / `char::to_lowercase`
are modelled by `Char.toLower`, which does basic-latin (ASCII)
lowercasing; full Unicode lowercasing differs only on non-ASCII
letters, which no key-combination construct below distinguishes. -/

/-- UTF-8 byte length of a string (`str::len`). -/
def byteLen (l : List Char) : Nat := (l.map Char.utf8Size).sum

/-- `char::is_whitespace` (the Unicode `White_Space` property). -/
def rustIsWhitespace (c : Char) : Bool :=
  c.val = 0x09 || c.val = 0x0a || c.val = 0x0b || c.val = 0x0c ||
  c.val = 0x0d || c.val = 0x20 || c.val = 0x85 || c.val = 0xa0 ||
  c.val = 0x1680 || (0x2000 ≤ c.val && c.val ≤ 0x200a) ||
  c.val = 0x2028 || c.val = 0x2029 || c.val = 0x202f ||
  c.val = 0x205f || c.val = 0x3000

/-- `str::rsplit_once(sep)`: split around the *last* occurrence of
`sep`, or `none` when `sep` does not occur.  A split found in the tail
takes precedence, so the returned separator is the rightmost one. -/
def rsplitOnce (sep : Char) : List Char → Option (List Char × List Char)
  | [] => none
  | c :: rest =>
    match rsplitOnce sep rest with
    | some (a, b) => some (c :: a, b)
    | none => if c = sep then some ([], rest) else none

/-- `u8::from_str`: an optional leading `+`, then one or more ASCII
digits, with the value bounded by `u8::MAX`. -/
def parseU8 (l : List Char) : Option Nat :=
  let digits := match l with
    | '+' :: rest => rest
    | _ => l
  if digits = [] then none
  else if digits.all Char.isDigit then
    let n := digits.foldl (fun acc c => acc * 10 + (c.toNat - '0'.toNat)) 0
    if n ≤ 255 then some n else none
  else none

/-- One step of the modifier loop of `parse_key_string`: empty
segments are skipped, recognised segments are or-ed into the
accumulated modifier set, anything else aborts the parse. -/
def parseModifier (m : KeyModifiers) (part : List Char) : Option KeyModifiers :=
  if part = [] then some m
  else
    let lp := part.map Char.toLower
    if lp = ['c'] ∨ lp = ['c', 't', 'r', 'l'] then some (m.union KeyModifiers.CONTROL)
    else if lp = ['a'] ∨ lp = ['a', 'l', 't'] then some (m.union KeyModifiers.ALT)
    else if lp = ['s'] ∨ lp = ['s', 'h', 'i', 'f', 't'] then some (m.union KeyModifiers.SHIFT)
    else none

/-- The modifier loop of `parse_key_string` over the `-`-split segments
(the `Option` monad models the early `return None`). -/
def parseModifiers (modParts : List (List Char)) : Option KeyModifiers :=
  modParts.foldlM parseModifier KeyModifiers.NONE

/-- The named-key `match` arms of `parse_key_string`, tabulated in
source order (`esc`/`escape` are the two patterns of one arm).  The
arms' patterns are mutually exclusive, so an ordered first-match
lookup over this table is exactly the Rust `match` over these arms. -/
def namedKeys : List (List Char × KeyCode) :=
  [ (['e', 'n', 't', 'e', 'r'], KeyCode.Enter),
    (['t', 'a', 'b'], KeyCode.Tab),
    (['b', 'a', 'c', 'k', 's', 'p', 'a', 'c', 'e'], KeyCode.Backspace),
    (['e', 's', 'c'], KeyCode.Esc),
    (['e', 's', 'c', 'a', 'p', 'e'], KeyCode.Esc),
    (['l', 'e', 'f', 't'], KeyCode.Left),
    (['r', 'i', 'g', 'h', 't'], KeyCode.Right),
    (['u', 'p'], KeyCode.Up),
    (['d', 'o', 'w', 'n'], KeyCode.Down),
    (['h', 'o', 'm', 'e'], KeyCode.Home),
    (['e', 'n', 'd'], KeyCode.End),
    (['p', 'a', 'g', 'e', 'u', 'p'], KeyCode.PageUp),
    (['p', 'a', 'g', 'e', 'd', 'o', 'w', 'n'], KeyCode.PageDown),
    (['d', 'e', 'l', 'e', 't', 'e'], KeyCode.Delete),
    (['i', 'n', 's', 'e', 'r', 't'], KeyCode.Insert) ]

/-- The key-part `match` of `parse_key_string`: the named-key
vocabulary, then the `f`-number arm (guarded by a byte length `> 1`),
then the single-byte character arm. -/
def matchKeyPart (key : List Char) : Option KeyCode :=
  match namedKeys.find? (fun p => p.1 = key) with
  | some p => some p.2
  | none =>
    if key.head? = some 'f' ∧ 1 < byteLen key then
      match parseU8 (key.drop 1) with
      | some n => if 1 ≤ n ∧ n ≤ 12 then some (KeyCode.F n) else none
      | none => none
    else if byteLen key = 1 then
      match key with
      | c :: _ => some (KeyCode.Char c)
      | [] => none
    else none

/-- The part of `parse_key_string` that follows the
`inner.rsplit_once('-')` destructuring: reject a blank key part, fold
the modifier segments, and match the lower-cased key part. -/
def parseSegments (modParts keyPartStr : List Char) : Option (KeyCode × KeyModifiers) :=
  if keyPartStr.all rustIsWhitespace then none
  else
    match
      (if modParts.isEmpty then some KeyModifiers.NONE
       else parseModifiers (modParts.splitOn '-')) with
    | none => none
    | some mods =>
      match matchKeyPart (keyPartStr.map Char.toLower) with
      | none => none
      | some code => some (code, mods)

/-- The bracketed branch of `parse_key_string`, applied to the text
between `<` and `>`: blank check, the `"-"` special case, and the
`rsplit_once('-').unwrap_or(("", inner))` destructuring. -/
def parseInner (inner : List Char) : Option (KeyCode × KeyModifiers) :=
  if inner.all rustIsWhitespace then none
  else if inner = ['-'] then some (KeyCode.Char '-', KeyModifiers.NONE)
  else
    match rsplitOnce '-' inner with
    | some (a, b) => parseSegments a b
    | none => parseSegments [] inner

/-- `parse_key_string` (`lazy-config/src/keymap.rs`, lines 104-193). -/
def parseKeyString (s : List Char) : Option (KeyCode × KeyModifiers) :=
  if s.head? = some '<' ∧ s.getLast? = some '>' then
    parseInner ((s.drop 1).dropLast)
  else if byteLen s = 1 then
    match s with
    | c :: _ => some (KeyCode.Char c, KeyModifiers.NONE)
    | [] => none
  else none

/-- The key-part text of `format_key_string`. -/
def keyPartString : KeyCode → List Char
  | KeyCode.Enter => ['e', 'n', 't', 'e', 'r']
  | KeyCode.Tab => ['t', 'a', 'b']
  | KeyCode.Backspace => ['b', 'a', 'c', 'k', 's', 'p', 'a', 'c', 'e']
  | KeyCode.Esc => ['e', 's', 'c']
  | KeyCode.Left => ['l', 'e', 'f', 't']
  | KeyCode.Right => ['r', 'i', 'g', 'h', 't']
  | KeyCode.Up => ['u', 'p']
  | KeyCode.Down => ['d', 'o', 'w', 'n']
  | KeyCode.Home => ['h', 'o', 'm', 'e']
  | KeyCode.End => ['e', 'n', 'd']
  | KeyCode.PageUp => ['p', 'a', 'g', 'e', 'u', 'p']
  | KeyCode.PageDown => ['p', 'a', 'g', 'e', 'd', 'o', 'w', 'n']
  | KeyCode.Delete => ['d', 'e', 'l', 'e', 't', 'e']
  | KeyCode.Insert => ['i', 'n', 's', 'e', 'r', 't']
  | KeyCode.F n => 'f' :: (toString n).toList
  | KeyCode.Char c => [Char.toLower c]

/-- The canonical `c`, `a`, `s` modifier segments of
`format_key_string`, in that order. -/
def modifierParts (m : KeyModifiers) : List (List Char) :=
  (if m.ctrl then [['c']] else []) ++
  (if m.alt then [['a']] else []) ++
  (if m.shift then [['s']] else [])

/-- The bracketed form `<{parts}-{key}>` of `format_key_string`. -/
def formatBracketed (code : KeyCode) (m : KeyModifiers) : List Char :=
  '<' :: (List.intercalate ['-'] (modifierParts m ++ [keyPartString code])) ++ ['>']

/-- `format_key_string` (`lazy-config/src/keymap.rs`, lines 198-244):
a bare character with no modifiers serialises without brackets,
everything else in bracketed lower-case canonical form. -/
def formatKeyString (code : KeyCode) (modifiers : KeyModifiers) : List Char :=
  if modifiers = KeyModifiers.NONE then
    match code with
    | KeyCode.Char c => [c]
    | _ => formatBracketed code modifiers
  else formatBracketed code modifiers

/-- Invariant of every character that the bracketed branch of
`parse_key_string` can emit as a `Char` key code: it is a fixed point
of lower-casing (the branch lower-cases the key part), it is not `-`
(the key part lies strictly after the last `-`), and it is not
whitespace (a blank key part is rejected). -/
def GoodChar (c : Char) : Prop :=
  Char.toLower c = c ∧ c ≠ '-' ∧ rustIsWhitespace c = false

/-- Characterisation of the outputs of `parse_key_string`: function
keys carry a number in `1..=12`; character keys are single-byte
(ASCII), and when modifiers are present the character moreover
satisfies `GoodChar` (it came from the lower-cased bracketed key
part); named keys are unconstrained. -/
def ParseOutputOK : KeyCode × KeyModifiers → Prop
  | (KeyCode.F n, _) => 1 ≤ n ∧ n ≤ 12
  | (KeyCode.Char c, m) => Char.utf8Size c = 1 ∧ (m = KeyModifiers.NONE ∨ GoodChar c)
  | _ => True

/-! ## Configuration records (`lazy-config/src/keymap.rs`) -/

/-- `ActionArgument` (`u8` value or `bool` flag). -/
inductive ActionArgument where
  | Value (v : Nat)
  | Enable (b : Bool)
deriving DecidableEq, Repr

/-- `KeymapConfig`: one `[[keymaps]]` record of the TOML file.  The
source field `on` is called `onStr` here because `on` is reserved in
Lean. -/
structure KeymapConfig where
  onStr : List Char
  run : KeyStatus
  argument : Option ActionArgument
  desc : Option (List Char)
deriving DecidableEq, Repr

/-- `impl From<&Keymaps> for HashMap<(KeyCode, KeyModifiers), KeyStatus>`
(`lazy-config/src/keymap.rs`, lines 54-63): parse every record's `on`
string with `parse_key_string`, *silently skipping* records whose `on`
string does not parse (`filter_map`), and collect into a map (later
records win on key collisions, as for `HashMap::collect`). -/
def keymapsToHashMap (configs : List KeymapConfig) : Keymap :=
  (configs.filterMap
      (fun keymapConfig =>
        (parseKeyString keymapConfig.onStr).map (fun key => (key, keymapConfig.run)))).foldl
    (fun acc p => hmInsert acc p.1 p.2) []

/-! ## Style value objects (`lazy-core/src/structs.rs`, ratatui types)

`ratatui::style::Color` is modelled by its `Reset` default and the
`Rgb` constructor (the only ones the repository uses);
`ratatui::style::Modifier` is a bit mask; `ratatui::widgets::Borders`
is the four-edge visibility mask.  `f64` (the progress-bar ratio) is
modelled as `Rat`: the repository only stores and forwards it, never
computes with it. -/

/-- `ratatui::style::Color` (the constructors the repo uses). -/
inductive Color where
  | Reset
  | Gray
  | White
  | Rgb (r g b : Nat)
deriving DecidableEq, Repr

/-- `ratatui::layout::Alignment`. -/
inductive Alignment where
  | Left
  | Center
  | Right
deriving DecidableEq, Repr

/-- `ratatui::style::Modifier` bit mask. -/
abbrev Modifier := Nat

/-- `Modifier::ITALIC`. -/
def Modifier.ITALIC : Modifier := 4

/-- `ratatui::widgets::Borders` edge-visibility mask. -/
structure Borders where
  top : Bool
  right : Bool
  bottom : Bool
  left : Bool
deriving DecidableEq, Repr

/-- `Borders::NONE`. -/
def Borders.NONE : Borders := ⟨false, false, false, false⟩

/-- `Borders::ALL`. -/
def Borders.ALL : Borders := ⟨true, true, true, true⟩

/-- `TitleStyle` (`lazy-core/src/structs.rs`). -/
structure TitleStyle where
  text : String
  alignment : Alignment
  modifier : Modifier
  fg : Color
  bg : Color
deriving DecidableEq, Repr

/-- `TitleStyle::default()`. -/
def TitleStyle.default : TitleStyle :=
  ⟨"", Alignment.Center, Modifier.ITALIC, Color.Rgb 130 170 255, Color.Rgb 34 36 54⟩

/-- `BorderStyle` (`lazy-core/src/structs.rs`). -/
structure BorderStyle where
  border : Borders
  fg : Color
  bg : Color
deriving DecidableEq, Repr

/-- `BorderStyle::default()`. -/
def BorderStyle.default : BorderStyle :=
  ⟨Borders.NONE, Color.Rgb 130 170 255, Color.Rgb 34 36 54⟩

/-- `BorderStyle`'s generated `set_border` accessor. -/
def BorderStyle.setBorder (bs : BorderStyle) (b : Borders) : BorderStyle :=
  { bs with border := b }

/-- The generated `toggle_border` of the Border capability
(`lazy-macro/src/has_tui_style.rs`, `gen_border_style_impl`): pick
`ALL` when the current mask is `NONE` and `NONE` otherwise, then store
it through `set_border`. -/
def BorderStyle.toggleBorder (bs : BorderStyle) : BorderStyle :=
  bs.setBorder (if bs.border = Borders.NONE then Borders.ALL else Borders.NONE)

/-- `TuiStyle` (`lazy-core/src/structs.rs`): foreground and background
colour.  (Widget `Default` impls also call `set_alignment` on it; that
accessor targets a field absent from this snapshot's `TuiStyle`, so
alignment is not modelled — no claim depends on it.) -/
structure TuiStyle where
  fg : Color
  bg : Color
deriving DecidableEq, Repr

/-- `TuiStyle::default()`. -/
def TuiStyle.default : TuiStyle := ⟨Color.Rgb 130 170 255, Color.Rgb 34 36 54⟩

/-- A `ratatui::style::Style` value as used by the navbar's
selected/unselected item styles. -/
structure RStyle where
  fg : Option Color
  bg : Option Color
  modifier : Modifier
deriving DecidableEq, Repr

/-! ## Leaf widgets (`lazy-tui/src/player/*`, `navbar.rs`, `progress.rs`) -/

/-- `std::time::Duration`, restricted to whole seconds (`as_secs` is
the only accessor the repository uses). -/
structure Duration where
  secs : Nat
deriving DecidableEq, Repr

/-- `PlaybackState` (`player/playback.rs`). -/
inductive PlaybackState where
  | Playing
  | Paused
  | Stopped
deriving DecidableEq, Repr

/-- `PlaybackTui`. -/
structure PlaybackTui where
  style : TuiStyle
  state : PlaybackState
deriving DecidableEq, Repr

/-- `PlaybackTui::default()` (`state` defaults to `Stopped`). -/
def PlaybackTui.default : PlaybackTui := ⟨TuiStyle.default, PlaybackState.Stopped⟩

/-- `PlaybackTui::toggle_state`. -/
def PlaybackTui.toggleState (w : PlaybackTui) : PlaybackTui :=
  { w with
    state :=
      match w.state with
      | PlaybackState.Playing => PlaybackState.Paused
      | PlaybackState.Paused => PlaybackState.Playing
      | PlaybackState.Stopped => PlaybackState.Playing }

/-- `TrackTui`. -/
structure TrackTui where
  track : String
  style : TuiStyle
deriving DecidableEq, Repr

/-- `TrackTui::default()`. -/
def TrackTui.default : TrackTui := ⟨"Not Song", TuiStyle.default⟩

/-- `TrackTui::set_track` (the source skips the write when the text is
unchanged; the resulting state is the same either way). -/
def TrackTui.setTrack (w : TrackTui) (track : String) : TrackTui :=
  { w with track := track }

/-- `ArtistTui`. -/
structure ArtistTui where
  artist : String
  style : TuiStyle
deriving DecidableEq, Repr

/-- `ArtistTui::default()`. -/
def ArtistTui.default : ArtistTui := ⟨"Not Artist", TuiStyle.default⟩

/-- `ArtistTui::set_artist` (same write-skip remark as `set_track`). -/
def ArtistTui.setArtist (w : ArtistTui) (artist : String) : ArtistTui :=
  { w with artist := artist }

/-- `VolumeTui` (volume in `0..=100`). -/
structure VolumeTui where
  volume : Nat
  style : TuiStyle
deriving DecidableEq, Repr

/-- `VolumeTui::default()` (volume 50). -/
def VolumeTui.default : VolumeTui := ⟨50, TuiStyle.default⟩

/-- `VolumeTui::adjust_volume`: widen to `i16`, add the `i8` delta,
clamp into `0..=100`, narrow back (`player/volume.rs`, lines 75-78). -/
def VolumeTui.adjustVolume (w : VolumeTui) (delta : Int) : VolumeTui :=
  { w with volume := (max 0 (min ((w.volume : Int) + delta) 100)).toNat }

/-- `PlaybackMode` (`player/playback_mode.rs`). -/
inductive PlaybackMode where
  | Repeat
  | Random
  | Consume
  | Single
deriving DecidableEq, Repr

/-- `PlaybackMode::next` (cyclic). -/
def PlaybackMode.next : PlaybackMode → PlaybackMode
  | PlaybackMode.Repeat => PlaybackMode.Random
  | PlaybackMode.Random => PlaybackMode.Consume
  | PlaybackMode.Consume => PlaybackMode.Single
  | PlaybackMode.Single => PlaybackMode.Repeat

/-- `PlaybackModeTui`. -/
structure PlaybackModeTui where
  mode : PlaybackMode
  style : TuiStyle
deriving DecidableEq, Repr

/-- `PlaybackModeTui::default()` (`mode` defaults to `Repeat`). -/
def PlaybackModeTui.default : PlaybackModeTui := ⟨PlaybackMode.Repeat, TuiStyle.default⟩

/-- `PlaybackModeTui::toggle_mode`. -/
def PlaybackModeTui.toggleMode (w : PlaybackModeTui) : PlaybackModeTui :=
  { w with mode := w.mode.next }

/-- `PlaybackProgressTui` (`player/playback_progress.rs`). -/
structure PlaybackProgressTui where
  style : TuiStyle
  progress : Duration
  duration : Duration
deriving DecidableEq, Repr

/-- `PlaybackProgressTui::default()` (both durations zero). -/
def PlaybackProgressTui.default : PlaybackProgressTui :=
  ⟨TuiStyle.default, ⟨0⟩, ⟨0⟩⟩

/-- `PlaybackProgressTui::set_progress`. -/
def PlaybackProgressTui.setProgress (w : PlaybackProgressTui) (p : Duration) :
    PlaybackProgressTui :=
  { w with progress := p }

/-- `PlaybackProgressTui::set_duration`. -/
def PlaybackProgressTui.setDuration (w : PlaybackProgressTui) (d : Duration) :
    PlaybackProgressTui :=
  { w with duration := d }

/-- Left-pad a string with `0` to width two (`format!("{:0>2}", _)`,
written with escaped braces here). -/
def padZero2 (s : String) : String :=
  if s.length < 2 then String.mk (List.replicate (2 - s.length) '0') ++ s else s

/-- `PlaybackProgressTui::format_duration`: `MM:SS` from whole
seconds. -/
def formatDuration (d : Duration) : String :=
  padZero2 (toString (d.secs / 60)) ++ ":" ++ padZero2 (toString (d.secs % 60))

/-- The text content of the `Line` built by
`PlaybackProgressTui::render`: a leading space span, the formatted
`progress`, the `" / "` separator span, then the formatted
`duration`. -/
def PlaybackProgressTui.renderText (w : PlaybackProgressTui) : String :=
  " " ++ formatDuration w.progress ++ " / " ++ formatDuration w.duration

/-- `NavbarItem` (`navbar.rs`). -/
inductive NavbarItem where
  | Queue
  | Logs
  | Directories
  | Artists
  | AlbumArtists
  | Albums
  | Playlists
  | Search
deriving DecidableEq, Repr

/-- `NavbarTui` (`navbar.rs`). -/
structure NavbarTui where
  title : TitleStyle
  border : BorderStyle
  style : TuiStyle
  selected : RStyle
  notSelected : RStyle
  selectedItem : NavbarItem
  selectedIcon : String
  notSelectedIcon : String
deriving DecidableEq, Repr

/-- `NavbarTui::default()` (the icon strings are private-use glyphs in
the source; their exact code points are irrelevant to every claim). -/
def NavbarTui.default : NavbarTui :=
  { title := TitleStyle.default
    border := BorderStyle.default
    style := TuiStyle.default
    selected := ⟨some (Color.Rgb 47 51 77), some (Color.Rgb 130 170 255), Modifier.ITALIC⟩
    notSelected := ⟨some (Color.Rgb 130 170 255), some (Color.Rgb 47 51 77), Modifier.ITALIC⟩
    selectedItem := NavbarItem.Queue
    selectedIcon := ""
    notSelectedIcon := "" }

/-- `ProgressTui` (`progress.rs`); the `f64` ratio is stored as a
rational. -/
structure ProgressTui where
  title : TitleStyle
  border : BorderStyle
  style : TuiStyle
  ratio : Rat
deriving DecidableEq, Repr

/-- `ProgressTui::default()` (background overridden, ratio `0.0`). -/
def ProgressTui.default : ProgressTui :=
  { title := TitleStyle.default
    border := BorderStyle.default
    style := { TuiStyle.default with bg := Color.Rgb 47 51 77 }
    ratio := 0 }

/-! ## The widget tree

`Box<dyn RenderTui>` children are modelled by a closed sum over the
concrete widget types of the repository; `PlayerTui`'s own fields are
inlined into its constructor because it recursively owns a widget
list. -/

/-- A `Box<dyn RenderTui>` tree node. -/
inductive Widget where
  | playback (w : PlaybackTui)
  | track (w : TrackTui)
  | volume (w : VolumeTui)
  | playbackProgress (w : PlaybackProgressTui)
  | artist (w : ArtistTui)
  | playbackMode (w : PlaybackModeTui)
  | navbar (w : NavbarTui)
  | progressBar (w : ProgressTui)
  | player (title : TitleStyle) (border : BorderStyle) (style : TuiStyle)
      (widgets : List Widget)

/-- The concrete (`TypeId`) tag of a widget, the unit of
`downcast_ref::<T>` matching. -/
inductive WidgetType where
  | playback
  | track
  | volume
  | playbackProgress
  | artist
  | playbackMode
  | navbar
  | progressBar
  | player
deriving DecidableEq, Repr

/-- The concrete type of a tree node. -/
def Widget.ty : Widget → WidgetType
  | Widget.playback _ => WidgetType.playback
  | Widget.track _ => WidgetType.track
  | Widget.volume _ => WidgetType.volume
  | Widget.playbackProgress _ => WidgetType.playbackProgress
  | Widget.artist _ => WidgetType.artist
  | Widget.playbackMode _ => WidgetType.playbackMode
  | Widget.navbar _ => WidgetType.navbar
  | Widget.progressBar _ => WidgetType.progressBar
  | Widget.player _ _ _ _ => WidgetType.player

/-- `RenderTui::as_border_mut`: present for the widgets that override
the default `None` (`NavbarTui`, `ProgressTui`); every other widget —
including `PlayerTui`, which does not override it — answers absent. -/
def Widget.asBorderMut : Widget → Bool
  | Widget.navbar _ => true
  | Widget.progressBar _ => true
  | _ => false

/-- The border mask of a widget's own Border facet, when it owns one. -/
def Widget.bordersOf : Widget → Option Borders
  | Widget.navbar w => some w.border.border
  | Widget.progressBar w => some w.border.border
  | Widget.player _ b _ _ => some b.border
  | _ => none

/-- `HasWidgets::get_widget` / `get_widget_mut`
(`lazy-tui/src/traits.rs`, lines 91-101): scan the children in order
and return the first whose `downcast` to the requested concrete type
succeeds. -/
def getWidget (t : WidgetType) (ws : List Widget) : Option Widget :=
  ws.findSome? (fun w => if w.ty = t then some w else none)

/-- `delegate_to_widget!` (`lazy-tui/src/macros.rs`): run the handler
on the first child of the requested type, in place; do nothing when no
such child exists. -/
def delegateToWidget (t : WidgetType) (f : Widget → Widget) :
    List Widget → List Widget
  | [] => []
  | w :: rest =>
    if w.ty = t then f w :: rest else w :: delegateToWidget t f rest

/-! ## UI events and dispatch (`lazy-tui/src/types.rs`, `player.rs`) -/

/-- `TuiEnent` (`lazy-tui/src/types.rs`): the two `Duration` payloads
of `PlaybackProgress` are documented as current-elapsed-time first,
total-duration second. -/
inductive TuiEnent where
  | Playback
  | Volumei (delta : Int)
  | PlaybackProgress (d1 : Duration) (d2 : Duration)
  | PlaybackMode
  | Artist (s : String)
  | Track (s : String)

/-- The target child type of each event variant in `PlayerTui`'s
routing table (`player.rs`, `enent_handle`). -/
def eventTarget : TuiEnent → WidgetType
  | TuiEnent.Playback => WidgetType.playback
  | TuiEnent.Volumei _ => WidgetType.volume
  | TuiEnent.PlaybackProgress _ _ => WidgetType.playbackProgress
  | TuiEnent.PlaybackMode => WidgetType.playbackMode
  | TuiEnent.Artist _ => WidgetType.artist
  | TuiEnent.Track _ => WidgetType.track

/-- Apply a `PlaybackTui` update to a node when it is one. -/
def onPlayback (f : PlaybackTui → PlaybackTui) : Widget → Widget
  | Widget.playback w => Widget.playback (f w)
  | w => w

/-- Apply a `VolumeTui` update to a node when it is one. -/
def onVolume (f : VolumeTui → VolumeTui) : Widget → Widget
  | Widget.volume w => Widget.volume (f w)
  | w => w

/-- Apply a `PlaybackProgressTui` update to a node when it is one. -/
def onPlaybackProgress (f : PlaybackProgressTui → PlaybackProgressTui) :
    Widget → Widget
  | Widget.playbackProgress w => Widget.playbackProgress (f w)
  | w => w

/-- Apply a `PlaybackModeTui` update to a node when it is one. -/
def onPlaybackMode (f : PlaybackModeTui → PlaybackModeTui) : Widget → Widget
  | Widget.playbackMode w => Widget.playbackMode (f w)
  | w => w

/-- Apply an `ArtistTui` update to a node when it is one. -/
def onArtist (f : ArtistTui → ArtistTui) : Widget → Widget
  | Widget.artist w => Widget.artist (f w)
  | w => w

/-- Apply a `TrackTui` update to a node when it is one. -/
def onTrack (f : TrackTui → TrackTui) : Widget → Widget
  | Widget.track w => Widget.track (f w)
  | w => w

/-- `PlayerTui` (`player.rs`): the player panel composite. -/
structure PlayerTui where
  title : TitleStyle
  border : BorderStyle
  style : TuiStyle
  widgets : List Widget

/-- `PlayerTui::default()`: the six leaf children in layout order. -/
def PlayerTui.default : PlayerTui :=
  { title := TitleStyle.default
    border := BorderStyle.default
    style := TuiStyle.default
    widgets :=
      [ Widget.playback PlaybackTui.default,
        Widget.track TrackTui.default,
        Widget.volume VolumeTui.default,
        Widget.playbackProgress PlaybackProgressTui.default,
        Widget.artist ArtistTui.default,
        Widget.playbackMode PlaybackModeTui.default ] }

/-- `PlayerTui::enent_handle` (`player.rs`, lines 140-168): match the
event variant and delegate to the first child of the mapped type.  In
the `PlaybackProgress` arm the source binds the first payload as
`duration` and the second as `progress`, then calls
`set_progress(progress); set_duration(duration)`. -/
def PlayerTui.withWidgets (p : PlayerTui) (ws : List Widget) : PlayerTui :=
  { p with widgets := ws }

def PlayerTui.enentHandle (p : PlayerTui) (event : TuiEnent) : PlayerTui :=
  match event with
  | TuiEnent.Playback =>
    p.withWidgets (delegateToWidget WidgetType.playback
      (onPlayback PlaybackTui.toggleState) p.widgets)
  | TuiEnent.Volumei delta =>
    p.withWidgets (delegateToWidget WidgetType.volume
      (onVolume (fun w => w.adjustVolume delta)) p.widgets)
  | TuiEnent.PlaybackProgress duration progress =>
    p.withWidgets (delegateToWidget WidgetType.playbackProgress
      (onPlaybackProgress
        (fun w => (w.setProgress progress).setDuration duration)) p.widgets)
  | TuiEnent.PlaybackMode =>
    p.withWidgets (delegateToWidget WidgetType.playbackMode
      (onPlaybackMode PlaybackModeTui.toggleMode) p.widgets)
  | TuiEnent.Artist artist =>
    p.withWidgets (delegateToWidget WidgetType.artist
      (onArtist (fun w => w.setArtist artist)) p.widgets)
  | TuiEnent.Track track =>
    p.withWidgets (delegateToWidget WidgetType.track
      (onTrack (fun w => w.setTrack track)) p.widgets)

/-! ## The root composite (`lazy-tui/src/root.rs`) -/

/-- `RootTui`. -/
structure RootTui where
  title : TitleStyle
  border : BorderStyle
  style : TuiStyle
  widgets : List Widget

/-- `RootTui::default()`: player panel, navbar, progress bar. -/
def RootTui.default : RootTui :=
  { title := TitleStyle.default
    border := BorderStyle.default
    style := TuiStyle.default
    widgets :=
      [ Widget.player TitleStyle.default BorderStyle.default TuiStyle.default
          PlayerTui.default.widgets,
        Widget.navbar NavbarTui.default,
        Widget.progressBar ProgressTui.default ] }

/-- Flip a widget's own Border facet via its generated
`toggle_border` (the widgets that own a `BorderStyle` field). -/
def Widget.toggleBorderFacet : Widget → Widget
  | Widget.navbar w => Widget.navbar { w with border := w.border.toggleBorder }
  | Widget.progressBar w =>
    Widget.progressBar { w with border := w.border.toggleBorder }
  | Widget.player t b s ws => Widget.player t b.toggleBorder s ws
  | w => w

/-- `RootTui::toggle_all_border` (`root.rs`, lines 69-84): toggle the
root's own border, then — via typed lookup — the border of the first
`PlayerTui` child and of the first `ProgressTui` child.  No other
child is touched. -/
def RootTui.toggleAllBorder (r : RootTui) : RootTui :=
  { r with
    border := r.border.toggleBorder
    widgets :=
      delegateToWidget WidgetType.progressBar Widget.toggleBorderFacet
        (delegateToWidget WidgetType.player Widget.toggleBorderFacet r.widgets) }

/-- Whether a key code is a function key or a character key (the two
shapes that the tail arms of the key-part `match` can produce). -/
def isFnOrChar : KeyCode → Bool
  | KeyCode.F _ => true
  | KeyCode.Char _ => true
  | _ => false

/-- The rendered progress text of a node, when it is the progress
readout. -/
def Widget.progressTextOf : Widget → Option String
  | Widget.playbackProgress w => some w.renderText
  | _ => none

/-- The (progress, duration) second counts of a node, when it is the
progress readout. -/
def Widget.progressFieldsOf : Widget → Option (Nat × Nat)
  | Widget.playbackProgress w => some (w.progress.secs, w.duration.secs)
  | _ => none

/-! ### Lemmas on the association-list map -/

theorem hmLookup_hmInsert (m : Keymap) (k k' : KeyCombo) (v : KeyStatus) :
    hmLookup (hmInsert m k' v) k = if k = k' then some v else hmLookup m k := by
  induction m with
  | nil =>
    by_cases h : k = k'
    · subst h; simp [hmInsert, hmLookup, List.find?]
    · have h' : ¬k' = k := fun he => h he.symm
      simp [hmInsert, hmLookup, List.find?, h, h']
  | cons p rest ih =>
    simp only [hmInsert]
    by_cases hp : p.1 = k'
    · by_cases h : k = k'
      · subst h; simp [hmLookup, List.find?, hp]
      · have h' : ¬k' = k := fun he => h he.symm
        have hpk : ¬p.1 = k := by rw [hp]; exact h'
        simp [hmLookup, List.find?, hp, h, h', hpk]
    · by_cases hk : p.1 = k
      · have h : ¬k = k' := fun he => hp (hk.trans he)
        simp [hmLookup, List.find?, hp, hk, h]
      · simpa [hmLookup, List.find?, hp, hk] using ih

theorem hmLookup_hmExtend (batch m : Keymap) (k : KeyCombo) :
    hmLookup (hmExtend m batch) k =
      match lastVal batch k with
      | some v => some v
      | none => hmLookup m k := by
  induction batch generalizing m with
  | nil => simp [hmExtend, lastVal]
  | cons p rest ih =>
    have step : hmExtend m (p :: rest) = hmExtend (hmInsert m p.1 p.2) rest := rfl
    rw [step, ih]
    cases hrest : lastVal rest k with
    | some v => simp [lastVal, hrest]
    | none =>
      rw [hmLookup_hmInsert]
      by_cases h : k = p.1
      · subst h; simp [lastVal, hrest]
      · have h' : ¬p.1 = k := fun he => h he.symm
        simp [lastVal, hrest, h, h']

/-! ### Character and byte-length lemmas -/

theorem ascii_transfer (P : Char → Prop) [DecidablePred P]
    (h : ∀ n : Fin 128, P (Char.ofNat n.val)) (c : Char) (hc : c.toNat < 128) :
    P c := by
  have h2 := h ⟨c.toNat, hc⟩
  simpa using h2

theorem toLower_eq_self_of_not_upper {c : Char}
    (h : ¬(65 ≤ c.toNat ∧ c.toNat ≤ 90)) : Char.toLower c = c := by
  have hdef : Char.toLower c =
      if c.toNat ≥ 65 ∧ c.toNat ≤ 90 then Char.ofNat (c.toNat + 32) else c := rfl
  rw [hdef, if_neg]
  intro hcon
  exact h ⟨hcon.1, hcon.2⟩

theorem toLower_toLower (c : Char) :
    Char.toLower (Char.toLower c) = Char.toLower c := by
  by_cases h : 65 ≤ c.toNat ∧ c.toNat ≤ 90
  · have hc : c.toNat < 128 := lt_of_le_of_lt h.2 (by norm_num)
    exact ascii_transfer
      (fun x => Char.toLower (Char.toLower x) = Char.toLower x)
      (by decide) c hc
  · rw [toLower_eq_self_of_not_upper h, toLower_eq_self_of_not_upper h]

theorem toLower_ne_dash {c : Char} (h : c ≠ '-') : Char.toLower c ≠ '-' := by
  by_cases hup : 65 ≤ c.toNat ∧ c.toNat ≤ 90
  · have hc : c.toNat < 128 := lt_of_le_of_lt hup.2 (by norm_num)
    exact ascii_transfer (fun x => x ≠ '-' → Char.toLower x ≠ '-')
      (by decide) c hc h
  · rw [toLower_eq_self_of_not_upper hup]
    exact h

theorem rustIsWhitespace_toLower (c : Char) :
    rustIsWhitespace (Char.toLower c) = rustIsWhitespace c := by
  by_cases hup : 65 ≤ c.toNat ∧ c.toNat ≤ 90
  · have hc : c.toNat < 128 := lt_of_le_of_lt hup.2 (by norm_num)
    exact ascii_transfer
      (fun x => rustIsWhitespace (Char.toLower x) = rustIsWhitespace x)
      (by decide) c hc
  · rw [toLower_eq_self_of_not_upper hup]

theorem one_le_utf8Size (c : Char) : 1 ≤ c.utf8Size := by
  rcases Char.utf8Size_eq c with h | h | h | h <;> omega

theorem byteLen_cons (c : Char) (l : List Char) :
    byteLen (c :: l) = c.utf8Size + byteLen l := by
  simp [byteLen]

theorem byteLen_eq_zero {l : List Char} : byteLen l = 0 ↔ l = [] := by
  cases l with
  | nil => simp [byteLen]
  | cons c t =>
    have h1 := one_le_utf8Size c
    simp only [byteLen_cons]
    constructor
    · intro h; omega
    · intro h; simp at h

theorem byteLen_cons_eq_one {c : Char} {t : List Char}
    (h : byteLen (c :: t) = 1) : Char.utf8Size c = 1 ∧ t = [] := by
  rw [byteLen_cons] at h
  have h1 := one_le_utf8Size c
  have h2 : byteLen t = 0 := by omega
  exact ⟨by omega, byteLen_eq_zero.mp h2⟩

/-! ### `rsplitOnce` lemmas -/

theorem rsplitOnce_none_iff (sep : Char) (l : List Char) :
    rsplitOnce sep l = none ↔ sep ∉ l := by
  induction l with
  | nil => simp [rsplitOnce]
  | cons c rest ih =>
    rw [rsplitOnce]
    cases h : rsplitOnce sep rest with
    | some p =>
      have hmem : sep ∈ rest := by
        by_contra hn
        rw [← ih, h] at hn
        exact Option.noConfusion hn
      simp [List.mem_cons, hmem]
    | none =>
      have hrest : sep ∉ rest := ih.mp h
      by_cases hc : c = sep
      · subst hc
        simp
      · have hc' : ¬sep = c := fun he => hc he.symm
        simp [hc, hrest, List.mem_cons, hc']

theorem rsplitOnce_tail_no_sep (sep : Char) (l a b : List Char)
    (h : rsplitOnce sep l = some (a, b)) : sep ∉ b := by
  induction l generalizing a b with
  | nil => exact absurd h (by simp [rsplitOnce])
  | cons c rest ih =>
    rw [rsplitOnce] at h
    cases hr : rsplitOnce sep rest with
    | some p =>
      obtain ⟨pa, pb⟩ := p
      rw [hr] at h
      simp only [Option.some.injEq, Prod.mk.injEq] at h
      obtain ⟨-, rfl⟩ := h
      exact ih pa pb hr
    | none =>
      rw [hr] at h
      by_cases hc : c = sep
      · rw [if_pos hc] at h
        simp only [Option.some.injEq, Prod.mk.injEq] at h
        obtain ⟨-, rfl⟩ := h
        exact (rsplitOnce_none_iff sep rest).mp hr
      · rw [if_neg hc] at h
        exact Option.noConfusion h

/-! ### Output characterisation of `parse_key_string` -/

theorem map_toLower_singleton {l : List Char} {c : Char}
    (h : l.map Char.toLower = [c]) : ∃ d, l = [d] ∧ c = Char.toLower d := by
  cases l with
  | nil => simp at h
  | cons d t =>
    cases t with
    | nil =>
      simp only [List.map_cons, List.map_nil, List.cons.injEq, and_true] at h
      exact ⟨d, rfl, h.symm⟩
    | cons e t2 => simp at h

theorem namedKeys_not_fn_or_char : ∀ p ∈ namedKeys, isFnOrChar p.2 = false := by
  decide

theorem matchKeyPart_F {key : List Char} {n : Nat}
    (h : matchKeyPart key = some (KeyCode.F n)) : 1 ≤ n ∧ n ≤ 12 := by
  unfold matchKeyPart at h
  cases hfind : namedKeys.find? (fun p => p.1 = key) with
  | some p =>
    rw [hfind] at h
    simp only [Option.some.injEq] at h
    have hno := namedKeys_not_fn_or_char p (List.mem_of_find?_eq_some hfind)
    rw [h] at hno
    exact absurd hno (by simp [isFnOrChar])
  | none =>
    rw [hfind] at h
    try simp only [] at h
    split at h
    · -- the `f`-number arm
      split at h
      · rename_i n2 heq
        split at h
        · rename_i hrange
          simp only [Option.some.injEq, KeyCode.F.injEq] at h
          subst h
          omega
        · exact absurd h (by simp)
      · exact absurd h (by simp)
    · split at h
      · -- the single-byte character arm cannot produce an `F`
        cases key with
        | nil => exact absurd h (by simp)
        | cons d t => exact absurd h (by simp)
      · exact absurd h (by simp)

theorem matchKeyPart_char {key : List Char} {c : Char}
    (h : matchKeyPart key = some (KeyCode.Char c)) :
    key = [c] ∧ Char.utf8Size c = 1 := by
  unfold matchKeyPart at h
  cases hfind : namedKeys.find? (fun p => p.1 = key) with
  | some p =>
    rw [hfind] at h
    simp only [Option.some.injEq] at h
    have hno := namedKeys_not_fn_or_char p (List.mem_of_find?_eq_some hfind)
    rw [h] at hno
    exact absurd hno (by simp [isFnOrChar])
  | none =>
    rw [hfind] at h
    try simp only [] at h
    split at h
    · -- the `f`-number arm cannot produce a `Char`
      split at h
      · split at h
        · exact absurd h (by simp)
        · exact absurd h (by simp)
      · exact absurd h (by simp)
    · rename_i hguard
      split at h
      · -- the single-byte character arm
        rename_i hlen
        cases key with
        | nil => exact absurd h (by simp)
        | cons d t =>
          simp only [Option.some.injEq, KeyCode.Char.injEq] at h
          subst h
          obtain ⟨hs, ht⟩ := byteLen_cons_eq_one hlen
          subst ht
          exact ⟨rfl, hs⟩
      · exact absurd h (by simp)

theorem parseSegments_ok {mp kps : List Char} {code : KeyCode}
    {mods : KeyModifiers} (hdash : ('-' : Char) ∉ kps)
    (h : parseSegments mp kps = some (code, mods)) :
    ParseOutputOK (code, mods) := by
  rw [parseSegments] at h
  split at h
  · exact absurd h (by simp)
  · rename_i hws
    split at h
    · exact absurd h (by simp)
    · rename_i mods' hmods
      split at h
      · exact absurd h (by simp)
      · rename_i code' hcode
        simp only [Option.some.injEq, Prod.mk.injEq] at h
        obtain ⟨hc', hm'⟩ := h
        subst hc'
        subst hm'
        cases code'
        case F n => exact matchKeyPart_F hcode
        case Char c =>
          obtain ⟨hkey, hsize⟩ := matchKeyPart_char hcode
          obtain ⟨d, hd, hcd⟩ := map_toLower_singleton hkey
          subst hd
          subst hcd
          refine ⟨hsize, Or.inr ⟨toLower_toLower d, ?_, ?_⟩⟩
          · refine toLower_ne_dash (fun he => hdash ?_)
            rw [he] at *
            exact List.mem_singleton_self '-'
          · rw [rustIsWhitespace_toLower]
            simpa using hws
        all_goals exact trivial

theorem parseInner_ok {inner : List Char} {k : KeyCode × KeyModifiers}
    (h : parseInner inner = some k) : ParseOutputOK k := by
  unfold parseInner at h
  split at h
  · exact absurd h (by simp)
  · split at h
    · -- the `<->` special case
      simp only [Option.some.injEq] at h
      subst h
      exact ⟨by decide, Or.inl rfl⟩
    · split at h
      · rename_i a b heq
        exact parseSegments_ok (rsplitOnce_tail_no_sep '-' inner a b heq) h
      · rename_i heq
        exact parseSegments_ok ((rsplitOnce_none_iff '-' inner).mp heq) h

theorem parse_output_ok {s : List Char} {k : KeyCode × KeyModifiers}
    (h : parseKeyString s = some k) : ParseOutputOK k := by
  unfold parseKeyString at h
  split at h
  · exact parseInner_ok h
  · split at h
    · rename_i hlen
      cases s with
      | nil => exact absurd h (by simp)
      | cons c t =>
        simp only [Option.some.injEq] at h
        subst h
        exact ⟨(byteLen_cons_eq_one hlen).1, Or.inl rfl⟩
    · exact absurd h (by simp)

/-! ### Re-parsing the canonical form -/

theorem find_namedKeys_singleton (c : Char) :
    namedKeys.find? (fun p => p.1 = [c]) = none := by
  rw [List.find?_eq_none]
  intro p hp
  fin_cases hp <;> simp

theorem matchKeyPart_singleton (c : Char) (hsize : Char.utf8Size c = 1) :
    matchKeyPart [c] = some (KeyCode.Char c) := by
  have hb : byteLen [c] = 1 := by simp [byteLen, hsize]
  simp [matchKeyPart, find_namedKeys_singleton c, hb]

theorem reparse_char_nomods {c : Char} (hsize : Char.utf8Size c = 1) :
    parseKeyString [c] = some (KeyCode.Char c, KeyModifiers.NONE) := by
  have hcond : ¬([c].head? = some '<' ∧ [c].getLast? = some '>') := by
    rintro ⟨h1, h2⟩
    have e1 : c = '<' := by simpa using h1
    have e2 : c = '>' := by simpa using h2
    rw [e1] at e2
    exact absurd e2 (by decide)
  have hb : byteLen [c] = 1 := by simp [byteLen, hsize]
  unfold parseKeyString
  rw [if_neg hcond, if_pos hb]

theorem reparse_char_bracketed (c : Char) (hlow : Char.toLower c = c)
    (hdash : c ≠ '-') (hws : rustIsWhitespace c = false)
    (hsize : Char.utf8Size c = 1) (m : KeyModifiers)
    (hm : m ≠ KeyModifiers.NONE) :
    parseKeyString (formatBracketed (KeyCode.Char c) m) =
      some (KeyCode.Char c, m) := by
  obtain ⟨mc, ma, ms⟩ := m
  cases mc <;> cases ma <;> cases ms
  · exact absurd rfl hm
  · -- shift
    have harg : formatBracketed (KeyCode.Char c) ⟨false, false, true⟩ =
        ['<', 's', '-', Char.toLower c, '>'] := rfl
    rw [harg, hlow]
    unfold parseKeyString
    rw [if_pos ⟨rfl, rfl⟩]
    show parseInner ['s', '-', c] = some (KeyCode.Char c, ⟨false, false, true⟩)
    unfold parseInner
    rw [if_neg (by simp [rustIsWhitespace])]
    rw [if_neg (by simp)]
    have hr : rsplitOnce '-' ['s', '-', c] = some (['s'], [c]) := by
      simp [rsplitOnce, hdash]
    rw [hr]
    show parseSegments ['s'] [c] = some (KeyCode.Char c, ⟨false, false, true⟩)
    unfold parseSegments
    rw [if_neg (by simp [hws])]
    rw [show List.map Char.toLower [c] = [Char.toLower c] from rfl, hlow]
    rw [matchKeyPart_singleton c hsize]
    rfl
  · -- alt
    have harg : formatBracketed (KeyCode.Char c) ⟨false, true, false⟩ =
        ['<', 'a', '-', Char.toLower c, '>'] := rfl
    rw [harg, hlow]
    unfold parseKeyString
    rw [if_pos ⟨rfl, rfl⟩]
    show parseInner ['a', '-', c] = some (KeyCode.Char c, ⟨false, true, false⟩)
    unfold parseInner
    rw [if_neg (by simp [rustIsWhitespace])]
    rw [if_neg (by simp)]
    have hr : rsplitOnce '-' ['a', '-', c] = some (['a'], [c]) := by
      simp [rsplitOnce, hdash]
    rw [hr]
    show parseSegments ['a'] [c] = some (KeyCode.Char c, ⟨false, true, false⟩)
    unfold parseSegments
    rw [if_neg (by simp [hws])]
    rw [show List.map Char.toLower [c] = [Char.toLower c] from rfl, hlow]
    rw [matchKeyPart_singleton c hsize]
    rfl
  · -- alt + shift
    have harg : formatBracketed (KeyCode.Char c) ⟨false, true, true⟩ =
        ['<', 'a', '-', 's', '-', Char.toLower c, '>'] := rfl
    rw [harg, hlow]
    unfold parseKeyString
    rw [if_pos ⟨rfl, rfl⟩]
    show parseInner ['a', '-', 's', '-', c] =
      some (KeyCode.Char c, ⟨false, true, true⟩)
    unfold parseInner
    rw [if_neg (by simp [rustIsWhitespace])]
    rw [if_neg (by simp)]
    have hr : rsplitOnce '-' ['a', '-', 's', '-', c] =
        some (['a', '-', 's'], [c]) := by
      simp [rsplitOnce, hdash]
    rw [hr]
    show parseSegments ['a', '-', 's'] [c] =
      some (KeyCode.Char c, ⟨false, true, true⟩)
    unfold parseSegments
    rw [if_neg (by simp [hws])]
    rw [show List.map Char.toLower [c] = [Char.toLower c] from rfl, hlow]
    rw [matchKeyPart_singleton c hsize]
    rfl
  · -- ctrl
    have harg : formatBracketed (KeyCode.Char c) ⟨true, false, false⟩ =
        ['<', 'c', '-', Char.toLower c, '>'] := rfl
    rw [harg, hlow]
    unfold parseKeyString
    rw [if_pos ⟨rfl, rfl⟩]
    show parseInner ['c', '-', c] = some (KeyCode.Char c, ⟨true, false, false⟩)
    unfold parseInner
    rw [if_neg (by simp [rustIsWhitespace])]
    rw [if_neg (by simp)]
    have hr : rsplitOnce '-' ['c', '-', c] = some (['c'], [c]) := by
      simp [rsplitOnce, hdash]
    rw [hr]
    show parseSegments ['c'] [c] = some (KeyCode.Char c, ⟨true, false, false⟩)
    unfold parseSegments
    rw [if_neg (by simp [hws])]
    rw [show List.map Char.toLower [c] = [Char.toLower c] from rfl, hlow]
    rw [matchKeyPart_singleton c hsize]
    rfl
  · -- ctrl + shift
    have harg : formatBracketed (KeyCode.Char c) ⟨true, false, true⟩ =
        ['<', 'c', '-', 's', '-', Char.toLower c, '>'] := rfl
    rw [harg, hlow]
    unfold parseKeyString
    rw [if_pos ⟨rfl, rfl⟩]
    show parseInner ['c', '-', 's', '-', c] =
      some (KeyCode.Char c, ⟨true, false, true⟩)
    unfold parseInner
    rw [if_neg (by simp [rustIsWhitespace])]
    rw [if_neg (by simp)]
    have hr : rsplitOnce '-' ['c', '-', 's', '-', c] =
        some (['c', '-', 's'], [c]) := by
      simp [rsplitOnce, hdash]
    rw [hr]
    show parseSegments ['c', '-', 's'] [c] =
      some (KeyCode.Char c, ⟨true, false, true⟩)
    unfold parseSegments
    rw [if_neg (by simp [hws])]
    rw [show List.map Char.toLower [c] = [Char.toLower c] from rfl, hlow]
    rw [matchKeyPart_singleton c hsize]
    rfl
  · -- ctrl + alt
    have harg : formatBracketed (KeyCode.Char c) ⟨true, true, false⟩ =
        ['<', 'c', '-', 'a', '-', Char.toLower c, '>'] := rfl
    rw [harg, hlow]
    unfold parseKeyString
    rw [if_pos ⟨rfl, rfl⟩]
    show parseInner ['c', '-', 'a', '-', c] =
      some (KeyCode.Char c, ⟨true, true, false⟩)
    unfold parseInner
    rw [if_neg (by simp [rustIsWhitespace])]
    rw [if_neg (by simp)]
    have hr : rsplitOnce '-' ['c', '-', 'a', '-', c] =
        some (['c', '-', 'a'], [c]) := by
      simp [rsplitOnce, hdash]
    rw [hr]
    show parseSegments ['c', '-', 'a'] [c] =
      some (KeyCode.Char c, ⟨true, true, false⟩)
    unfold parseSegments
    rw [if_neg (by simp [hws])]
    rw [show List.map Char.toLower [c] = [Char.toLower c] from rfl, hlow]
    rw [matchKeyPart_singleton c hsize]
    rfl
  · -- ctrl + alt + shift
    have harg : formatBracketed (KeyCode.Char c) ⟨true, true, true⟩ =
        ['<', 'c', '-', 'a', '-', 's', '-', Char.toLower c, '>'] := rfl
    rw [harg, hlow]
    unfold parseKeyString
    rw [if_pos ⟨rfl, rfl⟩]
    show parseInner ['c', '-', 'a', '-', 's', '-', c] =
      some (KeyCode.Char c, ⟨true, true, true⟩)
    unfold parseInner
    rw [if_neg (by simp [rustIsWhitespace])]
    rw [if_neg (by simp)]
    have hr : rsplitOnce '-' ['c', '-', 'a', '-', 's', '-', c] =
        some (['c', '-', 'a', '-', 's'], [c]) := by
      simp [rsplitOnce, hdash]
    rw [hr]
    show parseSegments ['c', '-', 'a', '-', 's'] [c] =
      some (KeyCode.Char c, ⟨true, true, true⟩)
    unfold parseSegments
    rw [if_neg (by simp [hws])]
    rw [show List.map Char.toLower [c] = [Char.toLower c] from rfl, hlow]
    rw [matchKeyPart_singleton c hsize]
    rfl

theorem format_reparse (code : KeyCode) (m : KeyModifiers)
    (h : ParseOutputOK (code, m)) :
    parseKeyString (formatKeyString code m) = some (code, m) := by
  obtain ⟨mc, ma, ms⟩ := m
  cases code
  case F n =>
    obtain ⟨h1, h2⟩ := h
    interval_cases n <;> cases mc <;> cases ma <;> cases ms <;> decide
  case Char c =>
    obtain ⟨hsize, hrest⟩ := h
    by_cases hm : (⟨mc, ma, ms⟩ : KeyModifiers) = KeyModifiers.NONE
    · rw [hm]
      exact reparse_char_nomods hsize
    · have hg : GoodChar c := hrest.resolve_left hm
      obtain ⟨hlow, hdash, hws⟩ := hg
      have hb : formatKeyString (KeyCode.Char c) ⟨mc, ma, ms⟩ =
          formatBracketed (KeyCode.Char c) ⟨mc, ma, ms⟩ := by
        unfold formatKeyString
        rw [if_neg hm]
      rw [hb]
      exact reparse_char_bracketed c hlow hdash hws hsize ⟨mc, ma, ms⟩ hm
  all_goals (cases mc <;> cases ma <;> cases ms <;> decide)

/-! ## Claim C1 -/

/-- C1 (counterexample): merging new key bindings with
`EventHandler::add_keybindings` is *not* value-exclusive.  Starting from
a map binding only `q` to `Quit` and merging the single new binding
`ctrl-a → Quit`, the pre-existing `q → Quit` binding is retained, so the
target status `Quit` is reachable from two key combinations, not
exactly one. -/
theorem add_keybindings_not_value_exclusive_cex :
    hmLookup (addKeybindings
        [((KeyCode.Char 'q', KeyModifiers.NONE), KeyStatus.Quit)]
        [((KeyCode.Char 'a', KeyModifiers.CONTROL), KeyStatus.Quit)])
      (KeyCode.Char 'q', KeyModifiers.NONE) = some KeyStatus.Quit ∧
    keysFor (addKeybindings
        [((KeyCode.Char 'q', KeyModifiers.NONE), KeyStatus.Quit)]
        [((KeyCode.Char 'a', KeyModifiers.CONTROL), KeyStatus.Quit)])
      KeyStatus.Quit =
      [(KeyCode.Char 'q', KeyModifiers.NONE),
       (KeyCode.Char 'a', KeyModifiers.CONTROL)] := by
  decide

/-- C1 (amended): merging a batch with `EventHandler::add_keybindings`
is key-exclusive, not value-exclusive.  For every key combination `k`:
if the batch contains no binding for `k`, the original binding of `k`
(if any) is retained — even when its target status appears among the
batch's targets; and if the batch binds `k`, the resulting map binds
`k` to the batch's latest value for `k`. -/
theorem add_keybindings_key_exclusive (m batch : Keymap) (k : KeyCombo) :
    (lastVal batch k = none →
      hmLookup (addKeybindings m batch) k = hmLookup m k) ∧
    (∀ v, lastVal batch k = some v →
      hmLookup (addKeybindings m batch) k = some v) := by
  constructor
  · intro h
    rw [addKeybindings, hmLookup_hmExtend, h]
  · intro v h
    rw [addKeybindings, hmLookup_hmExtend, h]

/-- C1 (witness): instantiating the amended claim on the default key
map with the batch `[ctrl-a → Quit]`: the untouched key `q` keeps its
default binding, and `ctrl-a` gets the new one. -/
theorem add_keybindings_key_exclusive_witness :
    hmLookup (addKeybindings defaultKeybindings
        [((KeyCode.Char 'a', KeyModifiers.CONTROL), KeyStatus.Quit)])
      (KeyCode.Char 'q', KeyModifiers.NONE) = some KeyStatus.Quit ∧
    hmLookup (addKeybindings defaultKeybindings
        [((KeyCode.Char 'a', KeyModifiers.CONTROL), KeyStatus.Quit)])
      (KeyCode.Char 'a', KeyModifiers.CONTROL) = some KeyStatus.Quit := by
  constructor
  · have h := (add_keybindings_key_exclusive defaultKeybindings
        [((KeyCode.Char 'a', KeyModifiers.CONTROL), KeyStatus.Quit)]
        (KeyCode.Char 'q', KeyModifiers.NONE)).1 (by decide)
    rw [h]; decide
  · exact (add_keybindings_key_exclusive defaultKeybindings
        [((KeyCode.Char 'a', KeyModifiers.CONTROL), KeyStatus.Quit)]
        (KeyCode.Char 'a', KeyModifiers.CONTROL)).2 KeyStatus.Quit (by decide)

/-! ## Claim C4 -/

/-- C4 (counterexample): a `Keymaps` collection whose single record has
the syntactically invalid `on` string `"longstring"` converts to a map
*successfully* and with the record silently omitted — no failure is
surfaced to the caller. -/
theorem keymaps_conversion_silent_drop_cex :
    parseKeyString "longstring".toList = none ∧
    keymapsToHashMap
      [{ onStr := "longstring".toList, run := KeyStatus.NoOp,
         argument := none, desc := none }] = [] := by
  constructor
  · rfl
  · rfl

/-- C4 (amended): the `Keymaps → HashMap` conversion is total and
silently skips every record whose `on` string is invalid: the result
is exactly the conversion of the sub-collection of records whose `on`
string parses.  Invalid records are dropped, not surfaced as
failures. -/
theorem keymaps_conversion_skips_invalid (configs : List KeymapConfig) :
    keymapsToHashMap configs =
      keymapsToHashMap
        (configs.filter (fun c => (parseKeyString c.onStr).isSome)) := by
  unfold keymapsToHashMap
  congr 1
  induction configs with
  | nil => rfl
  | cons c rest ih =>
    cases h : parseKeyString c.onStr with
    | none => simp [List.filterMap_cons, List.filter_cons, h, ih]
    | some k => simp [List.filterMap_cons, List.filter_cons, h, ih]

/-! ## Claim C5 -/

/-- C5: for every key-combination string accepted by
`parse_key_string`, re-parsing the formatted result yields the same
combination (`parse (format (parse s)) = parse s`); and the invalid
strings of the claim — empty, unknown modifier (`<x-a>`), out-of-range
function key (`<f13>`), multi-segment trailing key (`<c-enter-a>`) —
all make `parse_key_string` return `none`. -/
theorem parse_format_roundtrip :
    (∀ (s : List Char) (k : KeyCode × KeyModifiers),
        parseKeyString s = some k →
        parseKeyString (formatKeyString k.1 k.2) = parseKeyString s) ∧
    parseKeyString [] = none ∧
    parseKeyString "<x-a>".toList = none ∧
    parseKeyString "<f13>".toList = none ∧
    parseKeyString "<c-enter-a>".toList = none := by
  refine ⟨?_, rfl, rfl, rfl, rfl⟩
  intro s k h
  rw [h]
  obtain ⟨code, mods⟩ := k
  exact format_reparse code mods (parse_output_ok h)

/-- C5 (witness): the round-trip instantiated on `"<c-a>"`, which
parses to `ctrl`+`a`: formatting and re-parsing gives the same
combination. -/
theorem parse_format_roundtrip_witness :
    parseKeyString
        (formatKeyString (KeyCode.Char 'a') KeyModifiers.CONTROL) =
      parseKeyString "<c-a>".toList :=
  parse_format_roundtrip.1 "<c-a>".toList
    (KeyCode.Char 'a', KeyModifiers.CONTROL) (by decide)

/-! ### Widget-tree lemmas -/

theorem delegateToWidget_get? (t : WidgetType) (f : Widget → Widget)
    (ws : List Widget) (i : Nat) :
    (delegateToWidget t f ws).get? i = ws.get? i ∨
    (∃ w, ws.get? i = some w ∧ w.ty = t ∧
      (delegateToWidget t f ws).get? i = some (f w)) := by
  induction ws generalizing i with
  | nil => left; rfl
  | cons w rest ih =>
    unfold delegateToWidget
    by_cases hw : w.ty = t
    · rw [if_pos hw]
      cases i with
      | zero => right; exact ⟨w, rfl, hw, rfl⟩
      | succ j => left; rfl
    · rw [if_neg hw]
      cases i with
      | zero => left; rfl
      | succ j => simpa using ih j

theorem delegateToWidget_id (t : WidgetType) (f : Widget → Widget)
    (ws : List Widget) (h : ∀ w ∈ ws, w.ty ≠ t) :
    delegateToWidget t f ws = ws := by
  induction ws with
  | nil => rfl
  | cons w rest ih =>
    unfold delegateToWidget
    rw [if_neg (h w (List.mem_cons_self w rest))]
    rw [ih (fun u hu => h u (List.mem_cons_of_mem w hu))]

/-! ## Claim C6 -/

/-- C6: type-directed lookup scans the children in insertion order and
returns the first child of the requested concrete type — even when a
second child of the same type sits further right — and returns absent
when no child of the requested type exists. -/
theorem get_widget_first_match :
    (∀ (t : WidgetType) (ws₁ ws₂ : List Widget) (w : Widget),
        w.ty = t → (∀ u ∈ ws₁, u.ty ≠ t) →
        getWidget t (ws₁ ++ w :: ws₂) = some w) ∧
    (∀ (t : WidgetType) (ws : List Widget),
        (∀ u ∈ ws, u.ty ≠ t) → getWidget t ws = none) := by
  constructor
  · intro t ws₁ ws₂ w hw h
    induction ws₁ with
    | nil => simp [getWidget, hw]
    | cons u rest ih =>
      have hu : u.ty ≠ t := h u (List.mem_cons_self u rest)
      have hrest := ih (fun v hv => h v (List.mem_cons_of_mem u hv))
      simpa [getWidget, hu] using hrest
  · intro t ws h
    induction ws with
    | nil => rfl
    | cons u rest ih =>
      have hu : u.ty ≠ t := h u (List.mem_cons_self u rest)
      have hrest := ih (fun v hv => h v (List.mem_cons_of_mem u hv))
      simpa [getWidget, hu] using hrest

/-- C6 (witness): in a container holding a playback widget and two
volume widgets, looking up the volume type returns the first volume
widget (the default one), skipping neither-typed children and ignoring
the duplicate. -/
theorem get_widget_first_match_witness :
    getWidget WidgetType.volume
        ([Widget.playback PlaybackTui.default] ++
          Widget.volume VolumeTui.default ::
            [Widget.volume ⟨99, TuiStyle.default⟩]) =
      some (Widget.volume VolumeTui.default) ∧
    getWidget WidgetType.navbar
        [Widget.playback PlaybackTui.default,
         Widget.volume VolumeTui.default] = none := by
  constructor
  · refine get_widget_first_match.1 WidgetType.volume
      [Widget.playback PlaybackTui.default]
      [Widget.volume ⟨99, TuiStyle.default⟩]
      (Widget.volume VolumeTui.default) rfl ?_
    intro u hu
    rw [List.mem_singleton] at hu
    subst hu
    decide
  · refine get_widget_first_match.2 WidgetType.navbar _ ?_
    intro u hu
    rcases List.mem_pair.mp hu with h | h <;> subst h <;> decide

/-! ## Claim C7 -/

/-- C7: volume adjustment is clamped — from any volume in `0..=100`
and any integer delta the result stays in `0..=100` (as a `Nat` it is
trivially at least 0), and the two examples of the claim: 95 + 10 is
clamped to 100, and 5 − 10 is clamped to 0. -/
theorem adjust_volume_clamped :
    (∀ (w : VolumeTui) (delta : Int), w.volume ≤ 100 →
        (w.adjustVolume delta).volume ≤ 100) ∧
    ((VolumeTui.mk 95 TuiStyle.default).adjustVolume 10).volume = 100 ∧
    ((VolumeTui.mk 5 TuiStyle.default).adjustVolume (-10)).volume = 0 := by
  refine ⟨?_, by decide, by decide⟩
  intro w delta h
  simp only [VolumeTui.adjustVolume]
  omega

/-- C7 (witness): the clamp bound applied at volume 95, delta +10. -/
theorem adjust_volume_clamped_witness :
    ((VolumeTui.mk 95 TuiStyle.default).adjustVolume 10).volume ≤ 100 :=
  adjust_volume_clamped.1 (VolumeTui.mk 95 TuiStyle.default) 10 (by decide)

/-! ## Claim C8 -/

/-- C8: the generated `toggle_border` flips the edge mask between "no
edges" and "all edges": an empty mask becomes `ALL`, any non-empty
mask (partial masks included) becomes `NONE`, and from the `NONE` or
`ALL` states two consecutive toggles restore the original border
state. -/
theorem toggle_border_flips (bs : BorderStyle) :
    (bs.border = Borders.NONE → (bs.toggleBorder).border = Borders.ALL) ∧
    (bs.border ≠ Borders.NONE → (bs.toggleBorder).border = Borders.NONE) ∧
    (bs.border = Borders.NONE ∨ bs.border = Borders.ALL →
      bs.toggleBorder.toggleBorder = bs) := by
  obtain ⟨b, f, g⟩ := bs
  refine ⟨?_, ?_, ?_⟩
  · intro h
    have hb : b = Borders.NONE := h
    subst hb
    rfl
  · intro h
    have hb : b ≠ Borders.NONE := h
    simp [BorderStyle.toggleBorder, BorderStyle.setBorder, hb]
  · rintro (h | h)
    · have hb : b = Borders.NONE := h
      subst hb
      rfl
    · have hb : b = Borders.ALL := h
      subst hb
      rfl

/-- C8 (witness): toggling from a partial mask (set through
`set_border`) yields no edges; toggling the default (no-edges) border
yields all edges; a double toggle restores the default state. -/
theorem toggle_border_flips_witness :
    ((BorderStyle.default.setBorder ⟨true, false, false, true⟩).toggleBorder).border =
      Borders.NONE ∧
    (BorderStyle.default.toggleBorder).border = Borders.ALL ∧
    BorderStyle.default.toggleBorder.toggleBorder = BorderStyle.default :=
  ⟨(toggle_border_flips _).2.1 (by decide),
   (toggle_border_flips _).1 (by decide),
   (toggle_border_flips _).2.2 (Or.inl (by decide))⟩

/-! ## Claim C9 -/

/-- C9: dispatch misses are silent no-ops — for every UI event, if the
player container holds no child of the event's target widget type, the
event handler returns with the entire state (every child and the
composite's own style facets) exactly as before.  (Every variant of
`TuiEnent` has a routing-table entry in `PlayerTui::enent_handle`, so
the variant-without-entry case of the claim cannot arise there.) -/
theorem dispatch_miss_noop (p : PlayerTui) (e : TuiEnent)
    (h : ∀ w ∈ p.widgets, w.ty ≠ eventTarget e) :
    p.enentHandle e = p := by
  cases e
  all_goals
    (simp only [PlayerTui.enentHandle, PlayerTui.withWidgets]
     rw [delegateToWidget_id _ _ _ (by exact h)])

/-- C9 (witness): a `Playback` event dispatched to a player whose only
child is a navbar (no `PlaybackTui` present) leaves the state
untouched. -/
theorem dispatch_miss_noop_witness :
    PlayerTui.enentHandle
        { title := TitleStyle.default, border := BorderStyle.default,
          style := TuiStyle.default,
          widgets := [Widget.navbar NavbarTui.default] }
        TuiEnent.Playback =
      { title := TitleStyle.default, border := BorderStyle.default,
        style := TuiStyle.default,
        widgets := [Widget.navbar NavbarTui.default] } := by
  refine dispatch_miss_noop _ _ ?_
  intro w hw
  rw [List.mem_singleton] at hw
  subst hw
  decide

/-! ## Claim C10 -/

/-- C10: a volume-delta event mutates only the first `VolumeTui`
child's volume.  The player's own title, border and base style facets
are unchanged, and every child position either holds exactly the
widget it held before or held a `VolumeTui`, in which case it now
holds that widget with only its volume adjusted (its style is
untouched). -/
theorem volume_event_targets_only_volume (p : PlayerTui) (delta : Int) :
    ((p.enentHandle (TuiEnent.Volumei delta)).title = p.title ∧
     (p.enentHandle (TuiEnent.Volumei delta)).border = p.border ∧
     (p.enentHandle (TuiEnent.Volumei delta)).style = p.style) ∧
    (∀ i : Nat,
      (p.enentHandle (TuiEnent.Volumei delta)).widgets.get? i =
          p.widgets.get? i ∨
      ∃ v : VolumeTui,
        p.widgets.get? i = some (Widget.volume v) ∧
        (p.enentHandle (TuiEnent.Volumei delta)).widgets.get? i =
          some (Widget.volume (v.adjustVolume delta)) ∧
        (v.adjustVolume delta).style = v.style) := by
  constructor
  · exact ⟨rfl, rfl, rfl⟩
  · intro i
    have hd := delegateToWidget_get? WidgetType.volume
      (onVolume (fun w => w.adjustVolume delta)) p.widgets i
    rcases hd with hsame | ⟨w, hw, hty, hres⟩
    · left
      exact hsame
    · right
      cases w
      case volume v => exact ⟨v, hw, hres, rfl⟩
      all_goals simp [Widget.ty] at hty

/-! ## Claim C3 -/

/-- C3 (counterexample): on the default root container,
`toggle_all_border` flips the root's own border and the borders of the
`PlayerTui` and `ProgressTui` children, but the `NavbarTui` child —
although it exposes the Border capability (`as_border_mut` present) —
keeps its border unchanged (`NONE` before and after), contradicting
"every border-capable child has had its border flipped". -/
theorem toggle_all_border_skips_navbar_cex :
    ((getWidget WidgetType.navbar RootTui.default.widgets).map
        Widget.asBorderMut = some true) ∧
    ((getWidget WidgetType.navbar RootTui.default.widgets).bind
        Widget.bordersOf = some Borders.NONE) ∧
    ((getWidget WidgetType.navbar
        (RootTui.default.toggleAllBorder).widgets).bind
        Widget.bordersOf = some Borders.NONE) ∧
    ((getWidget WidgetType.player
        (RootTui.default.toggleAllBorder).widgets).bind
        Widget.bordersOf = some Borders.ALL) ∧
    ((getWidget WidgetType.progressBar
        (RootTui.default.toggleAllBorder).widgets).bind
        Widget.bordersOf = some Borders.ALL) ∧
    (RootTui.default.toggleAllBorder).border.border = Borders.ALL :=
  ⟨rfl, rfl, rfl, rfl, rfl, rfl⟩

/-- C3 (amended): `toggle_all_border` toggles the composite's own
Border facet and, via typed lookup, the borders of its first
`PlayerTui` child and first `ProgressTui` child; a `NavbarTui` child
is never touched, border capability notwithstanding. -/
theorem toggle_all_border_amended (r : RootTui) :
    (r.toggleAllBorder).border = r.border.toggleBorder ∧
    (∀ i w, r.widgets.get? i = some (Widget.navbar w) →
      (r.toggleAllBorder).widgets.get? i = some (Widget.navbar w)) := by
  constructor
  · rfl
  · intro i w hw
    show (delegateToWidget WidgetType.progressBar Widget.toggleBorderFacet
        (delegateToWidget WidgetType.player Widget.toggleBorderFacet
          r.widgets)).get? i = some (Widget.navbar w)
    have h1 := delegateToWidget_get? WidgetType.player
      Widget.toggleBorderFacet r.widgets i
    rcases h1 with h1 | ⟨u, hu, hty, hres⟩
    · have h2 := delegateToWidget_get? WidgetType.progressBar
        Widget.toggleBorderFacet
        (delegateToWidget WidgetType.player Widget.toggleBorderFacet r.widgets) i
      rcases h2 with h2 | ⟨u, hu, hty, hres⟩
      · rw [h2, h1, hw]
      · rw [h1, hw] at hu
        injection hu with hu
        subst hu
        simp [Widget.ty] at hty
    · rw [hw] at hu
      injection hu with hu
      subst hu
      simp [Widget.ty] at hty

/-- C3 (witness): on the default root, the navbar child (position 1)
is exactly as before after `toggle_all_border`. -/
theorem toggle_all_border_amended_witness :
    (RootTui.default.toggleAllBorder).widgets.get? 1 =
      some (Widget.navbar NavbarTui.default) :=
  (toggle_all_border_amended RootTui.default).2 1 NavbarTui.default rfl

/-! ## Claim C2 -/

/-- C2 (code bug): dispatching `PlaybackProgress` with the payloads in
the documented field order — elapsed 125 s first, total 245 s second —
to the default player stores 245 s in `progress` and 125 s in
`duration`, because the handler arm binds the first payload as
`duration` and the second as `progress`; re-rendering therefore shows
" 04:05 / 02:05" (total before the separator), not " 02:05 / 04:05"
as documented. -/
theorem playback_progress_field_order_bug :
    ((getWidget WidgetType.playbackProgress
        (PlayerTui.default.enentHandle
          (TuiEnent.PlaybackProgress ⟨125⟩ ⟨245⟩)).widgets).bind
        Widget.progressFieldsOf = some (245, 125)) ∧
    ((getWidget WidgetType.playbackProgress
        (PlayerTui.default.enentHandle
          (TuiEnent.PlaybackProgress ⟨125⟩ ⟨245⟩)).widgets).bind
        Widget.progressTextOf = some " 04:05 / 02:05") ∧
    ¬((getWidget WidgetType.playbackProgress
        (PlayerTui.default.enentHandle
          (TuiEnent.PlaybackProgress ⟨125⟩ ⟨245⟩)).widgets).bind
        Widget.progressTextOf = some " 02:05 / 04:05") := by
  refine ⟨rfl, rfl, ?_⟩
  intro h
  rw [show ((getWidget WidgetType.playbackProgress
      (PlayerTui.default.enentHandle
        (TuiEnent.PlaybackProgress ⟨125⟩ ⟨245⟩)).widgets).bind
      Widget.progressTextOf) = some " 04:05 / 02:05" from rfl] at h
  simp at h

end LazyMusic
